import Mathlib

/-!
Shallow embedding of the IncreCache LFU cache (ILfuCache.h).

The C++ engine keeps a key-to-node hash map and a frequency-to-list map of
doubly linked lists. Nodes carry (key, value, freq). We model the node map as
an association list from keys to (value, freq) records, and each frequency
list as the list of keys it holds in order (oldest first; addNode appends at
the tail). All counters are Int, matching the C++ int fields; divisions are
Int.tdiv, matching C++ truncating division on the nonnegative operands that
occur. INT8_MAX is 127.
-/

set_option autoImplicit false
set_option linter.unusedSectionVars false

namespace IncreCache

variable {K V : Type} [DecidableEq K]

/-- Lookup in an association list, first match wins (models hash-map find). -/
def alookup : List (K × V) → K → Option V
  | [], _ => none
  | (k1, v1) :: t, k => if k = k1 then some v1 else alookup t k

/-- Insert-or-replace in an association list (models map subscript assignment:
replaces the mapped value in place when the key is present, else inserts). -/
def aupdate : List (K × V) → K → V → List (K × V)
  | [], k, v => [(k, v)]
  | (k1, v1) :: t, k, v => if k = k1 then (k, v) :: t else (k1, v1) :: aupdate t k v

/-- Erase a key from an association list (models map erase). -/
def aerase : List (K × V) → K → List (K × V)
  | [], _ => []
  | (k1, v1) :: t, k => if k = k1 then t else (k1, v1) :: aerase t k

/-- A cache node: the stored value and the access frequency. The key is the
position of the node in the node map. -/
structure Node (V : Type) where
  value : V
  freq : Int
  deriving DecidableEq

namespace FreqList

/-- FreqList.addNode: appends at the tail (before the tail sentinel). -/
def addNode (l : List K) (k : K) : List K := l ++ [k]

/-- FreqList.removeNode: detaches the node; a no-op when the node is not
linked. With unique keys this is erasure of the first occurrence. -/
def removeNode (l : List K) (k : K) : List K := l.erase k

/-- FreqList.getFirstNode: the entry right after the head sentinel; returns
the tail sentinel when the list is empty (modelled by none). -/
def getFirstNode (l : List K) : Option K := l.head?

end FreqList

/-- The LFU engine state: the fields of class ILfuCache. -/
structure ILfuCache (K V : Type) where
  capacity_ : Nat
  minFreq_ : Int
  maxAverageNum_ : Int
  curAverageNum_ : Int
  curTotalNum_ : Int
  nodeMap_ : List (K × Node V)
  freqToFreqList_ : List (Int × List K)
  deriving DecidableEq

/-- The constructor ILfuCache(capacity, maxAverageNum); INT8_MAX = 127. -/
def initCache (capacity : Nat) (maxAverageNum : Int) : ILfuCache K V :=
  { capacity_ := capacity
    minFreq_ := 127
    maxAverageNum_ := maxAverageNum
    curAverageNum_ := 0
    curTotalNum_ := 0
    nodeMap_ := []
    freqToFreqList_ := [] }

namespace ILfuCache

/-- The keys currently in the node map (the live entries). -/
def keys (s : ILfuCache K V) : List K := s.nodeMap_.map Prod.fst

/-- The frequency list for frequency f, empty when absent. -/
def bucketD (s : ILfuCache K V) (f : Int) : List K :=
  (alookup s.freqToFreqList_ f).getD []

/-- Store list l as the frequency list of f. -/
def setBucket (s : ILfuCache K V) (f : Int) (l : List K) : ILfuCache K V :=
  { s with freqToFreqList_ := aupdate s.freqToFreqList_ f l }

/-- removeFromFreqList: removes the node from the list of its frequency.
When no list was ever created for that frequency the source would conjure a
null list and dereference it; that case is unreachable (every node was added
through addToFreqList, which creates the list) and is modelled as a no-op. -/
def removeFromFreqList (s : ILfuCache K V) (f : Int) (k : K) : ILfuCache K V :=
  match alookup s.freqToFreqList_ f with
  | none => s
  | some l => setBucket s f (FreqList.removeNode l k)

/-- addToFreqList: creates the frequency list on demand, then appends the
node at the tail. -/
def addToFreqList (s : ILfuCache K V) (f : Int) (k : K) : ILfuCache K V :=
  setBucket s f (FreqList.addNode (bucketD s f) k)

/-- The sum of the frequency counts of all live entries. -/
def sumFreqs (s : ILfuCache K V) : Int :=
  (s.nodeMap_.map (fun p => p.2.freq)).sum

/-- The first half of addFreqNum: increment the running total and recompute
the running average (0 on an empty cache, else total divided by live count
with C++ truncating division). -/
def bumpAvg (s : ILfuCache K V) : ILfuCache K V :=
  let t := s.curTotalNum_ + 1
  { s with
    curTotalNum_ := t
    curAverageNum_ :=
      if s.nodeMap_.isEmpty then 0 else Int.tdiv t (s.nodeMap_.length : Int) }

/-- The aged frequency: freq minus maxAverageNum / 2, floored at 1. -/
def agedFreq (maxAverageNum f : Int) : Int :=
  let f1 := f - Int.tdiv maxAverageNum 2
  if f1 < 1 then 1 else f1

/-- One iteration of the aging loop in handleOverMaxAverageNum: remove the
node from its current frequency list, lower its frequency, reinsert it. -/
def agingStep (s : ILfuCache K V) (k : K) : ILfuCache K V :=
  match alookup s.nodeMap_ k with
  | none => s
  | some nd =>
    let s1 := removeFromFreqList s nd.freq k
    let f1 := agedFreq s1.maxAverageNum_ nd.freq
    let s2 := { s1 with nodeMap_ := aupdate s1.nodeMap_ k { nd with freq := f1 } }
    addToFreqList s2 f1 k

/-- updateMinFreq: scan all frequency lists for the smallest non-empty one,
starting from INT8_MAX, and fall back to 1 when the scan result is still
INT8_MAX. -/
def updateMinFreq (s : ILfuCache K V) : ILfuCache K V :=
  let m := s.freqToFreqList_.foldl
    (fun m p => if p.2.isEmpty then m else min m p.1) (127 : Int)
  { s with minFreq_ := if m = 127 then 1 else m }

/-- handleOverMaxAverageNum: the aging pass over every live entry, followed
by a recomputation of the minimum frequency. The source iterates the node
map mutating each node in place; the map keys are unchanged during the loop,
so folding over the entry key list is the same iteration. -/
def handleOverMaxAverageNum (s : ILfuCache K V) : ILfuCache K V :=
  if s.nodeMap_.isEmpty then s
  else updateMinFreq (s.keys.foldl agingStep s)

/-- addFreqNum: bump the total and the average, then run the aging pass when
the average exceeds the configured maximum. -/
def addFreqNum (s : ILfuCache K V) : ILfuCache K V :=
  let s1 := bumpAvg s
  if s1.curAverageNum_ > s1.maxAverageNum_ then handleOverMaxAverageNum s1 else s1

/-- decreaseFreqNum: subtract an evicted frequency from the running total and
recompute the running average. -/
def decreaseFreqNum (s : ILfuCache K V) (n : Int) : ILfuCache K V :=
  let t := s.curTotalNum_ - n
  { s with
    curTotalNum_ := t
    curAverageNum_ :=
      if s.nodeMap_.isEmpty then 0 else Int.tdiv t (s.nodeMap_.length : Int) }

/-- getInternal on the node stored for k (nd is the mapped node): read the
value, move the node from its frequency list to the next one, bump the
minimum frequency when the old minimum list was drained, update the
counters. -/
def getInternal (s : ILfuCache K V) (k : K) (nd : Node V) : ILfuCache K V × V :=
  let value := nd.value
  let s1 := removeFromFreqList s nd.freq k
  let nd1 : Node V := { nd with freq := nd.freq + 1 }
  let s2 := { s1 with nodeMap_ := aupdate s1.nodeMap_ k nd1 }
  let s3 := addToFreqList s2 nd1.freq k
  let s4 :=
    if nd1.freq - 1 = s3.minFreq_ ∧ bucketD s3 (nd1.freq - 1) = []
    then { s3 with minFreq_ := s3.minFreq_ + 1 } else s3
  (addFreqNum s4, value)

/-- kickOut: evict the first node of the minimum-frequency list. When that
list is empty, getFirstNode yields the tail sentinel: removeNode and the map
erase are no-ops for it (the sentinel key is indeterminate in the source; we
resolve it to a key that is not live) and its frequency field is 1, which is
what decreaseFreqNum receives. When no list exists for minFreq_ the source
would dereference a null list; that case is modelled as a no-op. -/
def kickOut (s : ILfuCache K V) : ILfuCache K V :=
  match alookup s.freqToFreqList_ s.minFreq_ with
  | none => s
  | some l =>
    match FreqList.getFirstNode l with
    | none => decreaseFreqNum s 1
    | some k =>
      match alookup s.nodeMap_ k with
      | none => s
      | some nd =>
        let s1 := removeFromFreqList s nd.freq k
        let s2 := { s1 with nodeMap_ := aerase s1.nodeMap_ k }
        decreaseFreqNum s2 nd.freq

/-- putInternal: evict when the map is exactly at capacity, then insert a
fresh node with frequency 1, count the access, and lower the minimum
frequency to 1. -/
def putInternal (s : ILfuCache K V) (k : K) (v : V) : ILfuCache K V :=
  let s1 := if s.nodeMap_.length = s.capacity_ then kickOut s else s
  let nd : Node V := { value := v, freq := 1 }
  let s2 := { s1 with nodeMap_ := aupdate s1.nodeMap_ k nd }
  let s3 := addToFreqList s2 1 k
  let s4 := addFreqNum s3
  { s4 with minFreq_ := min s4.minFreq_ 1 }

/-- put: no-op at capacity 0; on a present key overwrite the value in place
and run the same frequency bump as a hit; otherwise insert. -/
def put (s : ILfuCache K V) (k : K) (v : V) : ILfuCache K V :=
  if s.capacity_ = 0 then s
  else
    match alookup s.nodeMap_ k with
    | some nd =>
      let nd1 : Node V := { nd with value := v }
      let s1 := { s with nodeMap_ := aupdate s.nodeMap_ k nd1 }
      (getInternal s1 k nd1).1
    | none => putInternal s k v

/-- get with an out parameter: (new state, some value) on a hit, none on a
miss. -/
def get (s : ILfuCache K V) (k : K) : ILfuCache K V × Option V :=
  match alookup s.nodeMap_ k with
  | some nd =>
    let r := getInternal s k nd
    (r.1, some r.2)
  | none => (s, none)

/-- The convenience get overload: a default-initialized value is returned on
a miss. -/
def getValue [Inhabited V] (s : ILfuCache K V) (k : K) : ILfuCache K V × V :=
  let r := get s k
  (r.1, r.2.getD default)

/-- purge: clears the node map and the frequency lists. The counter fields
are untouched. -/
def purge (s : ILfuCache K V) : ILfuCache K V :=
  { s with nodeMap_ := [], freqToFreqList_ := [] }

end ILfuCache

/-- A single cache operation of the public interface. -/
inductive Op (K V : Type) where
  | put (k : K) (v : V)
  | get (k : K)
  | purge
  deriving DecidableEq

/-- Apply one operation to the engine, dropping the returned value. -/
def applyOp (s : ILfuCache K V) : Op K V → ILfuCache K V
  | .put k v => s.put k v
  | .get k => (s.get k).1
  | .purge => s.purge

/-- Run a sequence of operations from a state. -/
def runOps (s : ILfuCache K V) (ops : List (Op K V)) : ILfuCache K V :=
  ops.foldl applyOp s

/-- The value stored for a key, when present. -/
def valueAt (s : ILfuCache K V) (k : K) : Option V :=
  (alookup s.nodeMap_ k).map Node.value

/-- The sharded wrapper: a vector of independent engines plus the hashing
function used to route keys (std hash, an external deterministic hash). -/
structure KHashLfuCache (K V : Type) where
  capacity_ : Nat
  sliceNum_ : Nat
  lfuSliceCaches_ : List (ILfuCache K V)
  hashFn : K → Nat

namespace KHashLfuCache

/-- Hash(key): the routing hash, a pure function of the key. -/
def Hash (c : KHashLfuCache K V) (k : K) : Nat := c.hashFn k

/-- The shard selected for a key: Hash(key) mod sliceNum. -/
def sliceIndex (c : KHashLfuCache K V) (k : K) : Nat := c.Hash k % c.sliceNum_

/-- KHashLfuCache::put: delegate to the selected shard. Indexing past the
shard vector cannot happen for a constructed cache and is a no-op here. -/
def put (c : KHashLfuCache K V) (k : K) (v : V) : KHashLfuCache K V :=
  let i := c.sliceIndex k
  match c.lfuSliceCaches_[i]? with
  | some s => { c with lfuSliceCaches_ := c.lfuSliceCaches_.set i (s.put k v) }
  | none => c

/-- KHashLfuCache::get: delegate to the selected shard. -/
def get (c : KHashLfuCache K V) (k : K) : KHashLfuCache K V × Option V :=
  let i := c.sliceIndex k
  match c.lfuSliceCaches_[i]? with
  | some s =>
    let r := s.get k
    ({ c with lfuSliceCaches_ := c.lfuSliceCaches_.set i r.1 }, r.2)
  | none => (c, none)

/-- KHashLfuCache::purge: purge every shard. -/
def purge (c : KHashLfuCache K V) : KHashLfuCache K V :=
  { c with lfuSliceCaches_ := c.lfuSliceCaches_.map ILfuCache.purge }

end KHashLfuCache

/-- The KHashLfuCache constructor. hw stands in for the hardware concurrency
hint used when sliceNum is not positive. The source computes each shard size
as ceil(capacity / sliceNum) through double arithmetic, which is the exact
ceiling for every realistic size. -/
def initKHash (capacity : Nat) (sliceNum : Int) (maxAverageNum : Int) (hw : Nat)
    (hashFn : K → Nat) : KHashLfuCache K V :=
  let n : Nat := if sliceNum > 0 then sliceNum.toNat else hw
  let sliceSize := (capacity + n - 1) / n
  { capacity_ := capacity
    sliceNum_ := n
    lfuSliceCaches_ := List.replicate n (initCache sliceSize maxAverageNum)
    hashFn := hashFn }

/-! ### Association list lemmas -/

theorem alookup_nil (k : K) : alookup ([] : List (K × V)) k = none := rfl

theorem alookup_aupdate (l : List (K × V)) (k1 k : K) (v : V) :
    alookup (aupdate l k1 v) k = if k = k1 then some v else alookup l k := by
  induction l with
  | nil =>
    by_cases h : k = k1 <;> simp [aupdate, alookup, h]
  | cons p t ih =>
    obtain ⟨k2, v2⟩ := p
    by_cases h1 : k1 = k2
    · subst h1
      by_cases h : k = k1 <;> simp [aupdate, alookup, h]
    · by_cases h : k = k2
      · have hk1 : ¬ k = k1 := fun hh => h1 (hh.symm.trans h)
        have h2 : ¬ k2 = k1 := fun hh => h1 hh.symm
        simp [aupdate, alookup, h1, h, hk1, h2]
      · simp [aupdate, alookup, h1, h, ih]

theorem alookup_aupdate_self (l : List (K × V)) (k : K) (v : V) :
    alookup (aupdate l k v) k = some v := by
  simp [alookup_aupdate]

theorem alookup_aupdate_ne (l : List (K × V)) (k1 k : K) (v : V) (h : k ≠ k1) :
    alookup (aupdate l k1 v) k = alookup l k := by
  simp [alookup_aupdate, h]

theorem mem_keys_of_alookup (l : List (K × V)) (k : K) (v : V)
    (h : alookup l k = some v) : k ∈ l.map Prod.fst := by
  induction l with
  | nil => simp [alookup] at h
  | cons p t ih =>
    obtain ⟨k1, v1⟩ := p
    by_cases hk : k = k1
    · simp [hk]
    · simp [alookup, hk] at h
      simp [ih h]

theorem aupdate_keys_of_lookup (l : List (K × V)) (k : K) (v v0 : V)
    (h : alookup l k = some v0) :
    (aupdate l k v).map Prod.fst = l.map Prod.fst := by
  induction l with
  | nil => simp [alookup] at h
  | cons p t ih =>
    obtain ⟨k1, v1⟩ := p
    by_cases hk : k = k1
    · simp [aupdate, hk]
    · simp [alookup, hk] at h
      simp [aupdate, hk, ih h]

theorem ne_nil_of_alookup (l : List (K × V)) (k : K) (v : V)
    (h : alookup l k = some v) : l.isEmpty = false := by
  cases l with
  | nil => simp [alookup] at h
  | cons p t => rfl

/-! ### Frame lemmas for the state operations -/

namespace ILfuCache

@[simp] theorem setBucket_nodeMap (s : ILfuCache K V) (f : Int) (l : List K) :
    (s.setBucket f l).nodeMap_ = s.nodeMap_ := rfl

@[simp] theorem setBucket_capacity (s : ILfuCache K V) (f : Int) (l : List K) :
    (s.setBucket f l).capacity_ = s.capacity_ := rfl

@[simp] theorem setBucket_minFreq (s : ILfuCache K V) (f : Int) (l : List K) :
    (s.setBucket f l).minFreq_ = s.minFreq_ := rfl

@[simp] theorem setBucket_maxAverageNum (s : ILfuCache K V) (f : Int) (l : List K) :
    (s.setBucket f l).maxAverageNum_ = s.maxAverageNum_ := rfl

@[simp] theorem setBucket_curTotalNum (s : ILfuCache K V) (f : Int) (l : List K) :
    (s.setBucket f l).curTotalNum_ = s.curTotalNum_ := rfl

@[simp] theorem setBucket_curAverageNum (s : ILfuCache K V) (f : Int) (l : List K) :
    (s.setBucket f l).curAverageNum_ = s.curAverageNum_ := rfl

theorem bucketD_setBucket (s : ILfuCache K V) (f1 f : Int) (l : List K) :
    bucketD (s.setBucket f1 l) f = if f = f1 then l else bucketD s f := by
  by_cases h : f = f1 <;> simp [bucketD, setBucket, alookup_aupdate, h]

theorem removeFromFreqList_eq (s : ILfuCache K V) (f : Int) (k : K) :
    s.removeFromFreqList f k =
      match alookup s.freqToFreqList_ f with
      | none => s
      | some l => s.setBucket f (FreqList.removeNode l k) := rfl

@[simp] theorem removeFromFreqList_nodeMap (s : ILfuCache K V) (f : Int) (k : K) :
    (s.removeFromFreqList f k).nodeMap_ = s.nodeMap_ := by
  rw [removeFromFreqList_eq]
  cases alookup s.freqToFreqList_ f <;> rfl

@[simp] theorem removeFromFreqList_capacity (s : ILfuCache K V) (f : Int) (k : K) :
    (s.removeFromFreqList f k).capacity_ = s.capacity_ := by
  rw [removeFromFreqList_eq]
  cases alookup s.freqToFreqList_ f <;> rfl

@[simp] theorem removeFromFreqList_minFreq (s : ILfuCache K V) (f : Int) (k : K) :
    (s.removeFromFreqList f k).minFreq_ = s.minFreq_ := by
  rw [removeFromFreqList_eq]
  cases alookup s.freqToFreqList_ f <;> rfl

@[simp] theorem removeFromFreqList_maxAverageNum (s : ILfuCache K V) (f : Int) (k : K) :
    (s.removeFromFreqList f k).maxAverageNum_ = s.maxAverageNum_ := by
  rw [removeFromFreqList_eq]
  cases alookup s.freqToFreqList_ f <;> rfl

@[simp] theorem removeFromFreqList_curTotalNum (s : ILfuCache K V) (f : Int) (k : K) :
    (s.removeFromFreqList f k).curTotalNum_ = s.curTotalNum_ := by
  rw [removeFromFreqList_eq]
  cases alookup s.freqToFreqList_ f <;> rfl

@[simp] theorem removeFromFreqList_curAverageNum (s : ILfuCache K V) (f : Int) (k : K) :
    (s.removeFromFreqList f k).curAverageNum_ = s.curAverageNum_ := by
  rw [removeFromFreqList_eq]
  cases alookup s.freqToFreqList_ f <;> rfl

@[simp] theorem addToFreqList_nodeMap (s : ILfuCache K V) (f : Int) (k : K) :
    (s.addToFreqList f k).nodeMap_ = s.nodeMap_ := rfl

@[simp] theorem addToFreqList_capacity (s : ILfuCache K V) (f : Int) (k : K) :
    (s.addToFreqList f k).capacity_ = s.capacity_ := rfl

@[simp] theorem addToFreqList_minFreq (s : ILfuCache K V) (f : Int) (k : K) :
    (s.addToFreqList f k).minFreq_ = s.minFreq_ := rfl

@[simp] theorem addToFreqList_maxAverageNum (s : ILfuCache K V) (f : Int) (k : K) :
    (s.addToFreqList f k).maxAverageNum_ = s.maxAverageNum_ := rfl

@[simp] theorem addToFreqList_curTotalNum (s : ILfuCache K V) (f : Int) (k : K) :
    (s.addToFreqList f k).curTotalNum_ = s.curTotalNum_ := rfl

theorem bucketD_addToFreqList (s : ILfuCache K V) (f1 f : Int) (k : K) :
    bucketD (s.addToFreqList f1 k) f =
      if f = f1 then bucketD s f1 ++ [k] else bucketD s f := by
  simp [addToFreqList, bucketD_setBucket, FreqList.addNode]

@[simp] theorem updateMinFreq_nodeMap (s : ILfuCache K V) :
    s.updateMinFreq.nodeMap_ = s.nodeMap_ := rfl

@[simp] theorem updateMinFreq_freqToFreqList (s : ILfuCache K V) :
    s.updateMinFreq.freqToFreqList_ = s.freqToFreqList_ := rfl

@[simp] theorem updateMinFreq_maxAverageNum (s : ILfuCache K V) :
    s.updateMinFreq.maxAverageNum_ = s.maxAverageNum_ := rfl

@[simp] theorem bumpAvg_nodeMap (s : ILfuCache K V) :
    (bumpAvg s).nodeMap_ = s.nodeMap_ := rfl

@[simp] theorem bumpAvg_freqToFreqList (s : ILfuCache K V) :
    (bumpAvg s).freqToFreqList_ = s.freqToFreqList_ := rfl

@[simp] theorem bumpAvg_maxAverageNum (s : ILfuCache K V) :
    (bumpAvg s).maxAverageNum_ = s.maxAverageNum_ := rfl

@[simp] theorem bumpAvg_minFreq (s : ILfuCache K V) :
    (bumpAvg s).minFreq_ = s.minFreq_ := rfl

@[simp] theorem bumpAvg_curTotalNum (s : ILfuCache K V) :
    (bumpAvg s).curTotalNum_ = s.curTotalNum_ + 1 := rfl

/-! ### Preservation of stored values -/

theorem valueAt_agingStep (s : ILfuCache K V) (k1 k : K) :
    valueAt (agingStep s k1) k = valueAt s k := by
  unfold agingStep
  cases h : alookup s.nodeMap_ k1 with
  | none => rfl
  | some nd =>
    by_cases hk : k = k1
    · subst hk
      simp [valueAt, alookup_aupdate, h]
    · simp [valueAt, alookup_aupdate, hk]

theorem valueAt_foldl_agingStep (ks : List K) (s : ILfuCache K V) (k : K) :
    valueAt (ks.foldl agingStep s) k = valueAt s k := by
  induction ks generalizing s with
  | nil => rfl
  | cons k1 t ih => rw [List.foldl_cons, ih, valueAt_agingStep]

theorem valueAt_updateMinFreq (s : ILfuCache K V) (k : K) :
    valueAt s.updateMinFreq k = valueAt s k := rfl

theorem valueAt_handleOverMaxAverageNum (s : ILfuCache K V) (k : K) :
    valueAt s.handleOverMaxAverageNum k = valueAt s k := by
  unfold handleOverMaxAverageNum
  by_cases h : s.nodeMap_.isEmpty
  · simp [h]
  · simp only [h, Bool.false_eq_true, if_false, if_neg]
    rw [valueAt_updateMinFreq, valueAt_foldl_agingStep]

theorem valueAt_bumpAvg (s : ILfuCache K V) (k : K) :
    valueAt (bumpAvg s) k = valueAt s k := rfl

theorem valueAt_addFreqNum (s : ILfuCache K V) (k : K) :
    valueAt (addFreqNum s) k = valueAt s k := by
  unfold addFreqNum
  by_cases h : (bumpAvg s).curAverageNum_ > (bumpAvg s).maxAverageNum_
  · simp only [h, if_pos]
    rw [valueAt_handleOverMaxAverageNum, valueAt_bumpAvg]
  · simp only [h, if_neg, if_false]
    rw [valueAt_bumpAvg]

theorem getInternal_snd (s : ILfuCache K V) (k : K) (nd : Node V) :
    (s.getInternal k nd).2 = nd.value := rfl

theorem getInternal_fst_valueAt (s : ILfuCache K V) (k : K) (nd : Node V) :
    valueAt (s.getInternal k nd).1 k = some nd.value := by
  unfold getInternal
  simp only [valueAt_addFreqNum]
  split
  all_goals simp [valueAt, alookup_aupdate]

theorem get_snd_eq (s : ILfuCache K V) (k : K) :
    (s.get k).2 = (valueAt s k) := by
  unfold get
  cases h : alookup s.nodeMap_ k <;> simp [h, valueAt, getInternal_snd]

theorem valueAt_putInternal_self (s : ILfuCache K V) (k : K) (v : V) :
    valueAt (s.putInternal k v) k = some v := by
  unfold putInternal
  have h1 : ∀ (s1 : ILfuCache K V) (m : Int),
      valueAt { s1 with minFreq_ := m } k = valueAt s1 k := fun _ _ => rfl
  rw [h1, valueAt_addFreqNum]
  simp [valueAt, alookup_aupdate]

theorem valueAt_put_self (s : ILfuCache K V) (k : K) (v : V) (h : s.capacity_ ≠ 0) :
    valueAt (s.put k v) k = some v := by
  unfold put
  simp only [if_neg h]
  cases hk : alookup s.nodeMap_ k with
  | some nd => simpa using getInternal_fst_valueAt _ k { nd with value := v }
  | none => exact valueAt_putInternal_self s k v

theorem put_get_roundTrip (s : ILfuCache K V) (k : K) (v : V) (h : 1 ≤ s.capacity_) :
    ((s.put k v).get k).2 = some v := by
  rw [get_snd_eq, valueAt_put_self]
  omega

end ILfuCache

namespace KHashLfuCache

theorem sliceIndex_put (c : KHashLfuCache K V) (k1 k : K) (v : V) :
    (c.put k1 v).sliceIndex k = c.sliceIndex k := by
  unfold put
  cases h : c.lfuSliceCaches_[c.sliceIndex k1]? <;> simp only [h] <;> rfl

theorem khash_put_get_roundTrip (c : KHashLfuCache K V) (k : K) (v : V)
    (hlen : c.lfuSliceCaches_.length = c.sliceNum_) (hpos : 0 < c.sliceNum_)
    (hcaps : ∀ sh ∈ c.lfuSliceCaches_, 1 ≤ sh.capacity_) :
    ((c.put k v).get k).2 = some v := by
  have hi : c.sliceIndex k < c.lfuSliceCaches_.length := by
    rw [hlen]
    exact Nat.mod_lt _ hpos
  have hsome : c.lfuSliceCaches_[c.sliceIndex k]? = some c.lfuSliceCaches_[c.sliceIndex k] :=
    List.getElem?_eq_getElem hi
  have hmem : c.lfuSliceCaches_[c.sliceIndex k] ∈ c.lfuSliceCaches_ :=
    List.getElem_mem hi
  unfold put
  simp only [hsome]
  unfold get
  have hidx : ∀ (l : List (ILfuCache K V)),
      sliceIndex { c with lfuSliceCaches_ := l } k = c.sliceIndex k := fun _ => rfl
  simp only [hidx]
  have hset :
      (c.lfuSliceCaches_.set (c.sliceIndex k)
        ((c.lfuSliceCaches_[c.sliceIndex k]).put k v))[c.sliceIndex k]?
      = some ((c.lfuSliceCaches_[c.sliceIndex k]).put k v) :=
    List.getElem?_set_eq_of_lt _ hi
  simp only [hset]
  exact ILfuCache.put_get_roundTrip _ k v (hcaps _ hmem)

end KHashLfuCache

/-- Claim C1: for an ILfuCache with capacity at least 1, put(k, v) followed
immediately by get(k) returns (v, true); for a KHashLfuCache with positive
shard count whose shards all have capacity at least 1, the same round trip
holds, and put leaves the routing of k unchanged because the shard index is
a pure function of the key (hash mod sliceNum). -/
theorem C1_put_get_round_trip :
    (∀ (s : ILfuCache K V) (k : K) (v : V), 1 ≤ s.capacity_ →
      ((s.put k v).get k).2 = some v) ∧
    (∀ (c : KHashLfuCache K V) (k : K) (v : V),
      c.lfuSliceCaches_.length = c.sliceNum_ → 0 < c.sliceNum_ →
      (∀ sh ∈ c.lfuSliceCaches_, 1 ≤ sh.capacity_) →
      ((c.put k v).get k).2 = some v ∧ (c.put k v).sliceIndex k = c.sliceIndex k) := by
  constructor
  · exact fun s k v h => ILfuCache.put_get_roundTrip s k v h
  · intro c k v hlen hpos hcaps
    exact ⟨KHashLfuCache.khash_put_get_roundTrip c k v hlen hpos hcaps,
           KHashLfuCache.sliceIndex_put c k k v⟩

/-- Witness for C1 at concrete inputs: a fresh engine of capacity 2 and a
fresh sharded cache of total capacity 4 with 2 shards, identity hash. -/
theorem C1_witness :
    (((initCache 2 1000000 : ILfuCache Nat Nat).put 3 7).get 3).2 = some 7 ∧
    ((((initKHash 4 2 1000000 8 (fun k => k)) : KHashLfuCache Nat Nat).put 3 7).get 3).2
      = some 7 :=
  ⟨C1_put_get_round_trip.1 (initCache 2 1000000) 3 7 (by decide),
   (C1_put_get_round_trip.2 (initKHash 4 2 1000000 8 (fun k => k)) 3 7 (by decide)
      (by decide) (by
        intro sh hsh
        rw [List.eq_of_mem_replicate hsh]
        decide)).1⟩

/-! ### Claim C9: a capacity-0 cache is a silent no-op cache -/

theorem applyOp_capacityZero (m : Int) (op : Op K V) :
    applyOp (initCache 0 m) op = initCache 0 m := by
  cases op with
  | put k v => simp [applyOp, ILfuCache.put, initCache]
  | get k => simp [applyOp, ILfuCache.get, initCache, alookup]
  | purge => rfl

theorem runOps_capacityZero (m : Int) (ops : List (Op K V)) :
    runOps (initCache 0 m) ops = initCache 0 m := by
  induction ops with
  | nil => rfl
  | cons op t ih =>
    show runOps (applyOp (initCache 0 m) op) t = initCache 0 m
    rw [applyOp_capacityZero]
    exact ih

/-- Claim C9: on a cache constructed with capacity 0, every sequence of
operations leaves the state identical to the fresh state (every put is a
no-op), every get misses, and the convenience get returns the default
value. This degenerate configuration is not an error. -/
theorem C9_capacity_zero_noop [Inhabited V] (m : Int) (ops : List (Op K V)) (k : K) :
    runOps (initCache 0 m) ops = initCache 0 m ∧
    ((runOps (initCache 0 m) ops).get k).2 = none ∧
    ((runOps (initCache 0 m) ops).getValue k).2 = default := by
  rw [runOps_capacityZero]
  refine ⟨rfl, ?_, ?_⟩ <;> simp [ILfuCache.get, ILfuCache.getValue, initCache, alookup]

/-! ### Claim C7: what purge does and does not reset -/

/-- Counterexample for C7: after put(0, 0) on a fresh engine, purge leaves
curTotalNum_ = 1 and minFreq_ = 1, while a freshly constructed cache has
curTotalNum_ = 0 and minFreq_ = INT8_MAX = 127: the frequency bookkeeping is
not that of a fresh cache. -/
theorem C7_counterexample :
    (((initCache 1 1000000 : ILfuCache Nat Nat).put 0 0).purge).curTotalNum_ = 1 ∧
    (initCache 1 1000000 : ILfuCache Nat Nat).curTotalNum_ = 0 ∧
    (((initCache 1 1000000 : ILfuCache Nat Nat).put 0 0).purge).minFreq_ = 1 ∧
    (initCache 1 1000000 : ILfuCache Nat Nat).minFreq_ = 127 := by
  decide

/-- Claim C7 as amended: purge empties the index and all frequency lists
(live count 0, any get misses, purge is idempotent) and leaves capacity and
maxAverageNum unchanged, but it does NOT reset the frequency bookkeeping:
curTotalNum_, curAverageNum_ and minFreq_ keep their pre-purge values
instead of returning to those of a freshly constructed cache. -/
theorem C7_purge_frame (s : ILfuCache K V) (k : K) :
    s.purge.nodeMap_ = [] ∧
    s.purge.freqToFreqList_ = [] ∧
    (s.purge.get k).2 = none ∧
    s.purge.purge = s.purge ∧
    s.purge.capacity_ = s.capacity_ ∧
    s.purge.maxAverageNum_ = s.maxAverageNum_ ∧
    s.purge.curTotalNum_ = s.curTotalNum_ ∧
    s.purge.curAverageNum_ = s.curAverageNum_ ∧
    s.purge.minFreq_ = s.minFreq_ := by
  refine ⟨rfl, rfl, ?_, rfl, rfl, rfl, rfl, rfl, rfl⟩
  simp [ILfuCache.get, ILfuCache.purge, alookup]

/-! ### Claim C3: eviction removes the oldest entry of the minimum bucket -/

theorem kickOut_head (s : ILfuCache K V) (k : K) (t : List K) (nd : Node V)
    (hb : alookup s.freqToFreqList_ s.minFreq_ = some (k :: t))
    (hn : alookup s.nodeMap_ k = some nd) :
    s.kickOut.nodeMap_ = aerase s.nodeMap_ k ∧
    s.kickOut.curTotalNum_ = s.curTotalNum_ - nd.freq := by
  unfold ILfuCache.kickOut
  simp only [hb, FreqList.getFirstNode, List.head?, hn]
  constructor <;> simp [ILfuCache.decreaseFreqNum]

/-- The harness scenario for C3: capacity 2, default maxAverageNum; insert
A = 0 and B = 1, touch A, then insert C = 2 at full capacity. -/
def c3State : ILfuCache Nat Nat :=
  runOps (initCache 2 1000000) [Op.put 0 1, Op.put 1 2, Op.get 0, Op.put 2 3]

/-- Claim C3: in the capacity-2 scenario put(A,1), put(B,2), get(A),
put(C,3), the insert of C evicts B and not A: get(B) misses afterwards
while A and C are readable with their values. In general kickOut removes
the head (oldest entry) of the minimum-frequency list and subtracts its
frequency from the running total, and addToFreqList always appends at the
tail, which is what makes eviction FIFO within one frequency. -/
theorem C3_eviction_order :
    (((c3State.get 1).2 = none) ∧ ((c3State.get 0).2 = some 1) ∧
      ((c3State.get 2).2 = some 3)) ∧
    (∀ (s : ILfuCache K V) (k : K) (t : List K) (nd : Node V),
      alookup s.freqToFreqList_ s.minFreq_ = some (k :: t) →
      alookup s.nodeMap_ k = some nd →
      s.kickOut.nodeMap_ = aerase s.nodeMap_ k ∧
      s.kickOut.curTotalNum_ = s.curTotalNum_ - nd.freq) ∧
    (∀ (s : ILfuCache K V) (f : Int) (k : K),
      (s.addToFreqList f k).bucketD f = s.bucketD f ++ [k]) := by
  refine ⟨by decide, fun s k t nd hb hn => kickOut_head s k t nd hb hn, fun s f k => ?_⟩
  simp [ILfuCache.bucketD_addToFreqList]

/-! ### The aging pass: key set, values and frequencies -/

namespace ILfuCache

theorem maxAvg_agingStep (s : ILfuCache K V) (k1 : K) :
    (agingStep s k1).maxAverageNum_ = s.maxAverageNum_ := by
  unfold agingStep
  cases h : alookup s.nodeMap_ k1 <;> simp [h]

theorem lookup_agingStep_ne (s : ILfuCache K V) (k1 k : K) (h : k ≠ k1) :
    alookup (agingStep s k1).nodeMap_ k = alookup s.nodeMap_ k := by
  unfold agingStep
  cases h1 : alookup s.nodeMap_ k1 <;> simp [h1, alookup_aupdate, h]

theorem keys_agingStep (s : ILfuCache K V) (k1 : K) :
    (agingStep s k1).keys = s.keys := by
  unfold agingStep
  cases h : alookup s.nodeMap_ k1 with
  | none => rfl
  | some nd =>
    simp only [keys]
    simp [aupdate_keys_of_lookup _ _ _ _ h]

theorem agingStep_self (s : ILfuCache K V) (k : K) (nd : Node V)
    (h : alookup s.nodeMap_ k = some nd) :
    alookup (agingStep s k).nodeMap_ k
      = some { nd with freq := agedFreq s.maxAverageNum_ nd.freq } ∧
    k ∈ (agingStep s k).bucketD (agedFreq s.maxAverageNum_ nd.freq) := by
  unfold agingStep
  simp only [h]
  constructor
  · simp [alookup_aupdate]
  · simp [bucketD_addToFreqList]

theorem mem_bucketD_addToFreqList (s : ILfuCache K V) (f1 f : Int) (k1 k : K)
    (hm : k ∈ s.bucketD f) : k ∈ (s.addToFreqList f1 k1).bucketD f := by
  rw [bucketD_addToFreqList]
  by_cases hf : f = f1
  · rw [if_pos hf]
    rw [hf] at hm
    exact List.mem_append_left _ hm
  · rw [if_neg hf]
    exact hm

theorem mem_bucketD_agingStep (s : ILfuCache K V) (k1 k : K) (f : Int)
    (hne : k ≠ k1) (hm : k ∈ s.bucketD f) :
    k ∈ (agingStep s k1).bucketD f := by
  unfold agingStep
  cases h1 : alookup s.nodeMap_ k1 with
  | none => exact hm
  | some nd1 =>
    have hrm : k ∈ (s.removeFromFreqList nd1.freq k1).bucketD f := by
      rw [removeFromFreqList_eq]
      cases h2 : alookup s.freqToFreqList_ nd1.freq with
      | none => exact hm
      | some l =>
        show k ∈ (s.setBucket nd1.freq (FreqList.removeNode l k1)).bucketD f
        rw [bucketD_setBucket]
        by_cases hf : f = nd1.freq
        · rw [if_pos hf]
          have hbl : s.bucketD f = l := by
            rw [hf]
            simp [bucketD, h2]
          rw [hbl] at hm
          exact (List.mem_erase_of_ne hne).mpr hm
        · rw [if_neg hf]
          exact hm
    exact mem_bucketD_addToFreqList _ _ _ _ _ hrm

theorem maxAvg_foldl_agingStep (ks : List K) (s : ILfuCache K V) :
    (ks.foldl agingStep s).maxAverageNum_ = s.maxAverageNum_ := by
  induction ks generalizing s with
  | nil => rfl
  | cons k1 t ih => rw [List.foldl_cons, ih, maxAvg_agingStep]

theorem keys_foldl_agingStep (ks : List K) (s : ILfuCache K V) :
    (ks.foldl agingStep s).keys = s.keys := by
  induction ks generalizing s with
  | nil => rfl
  | cons k1 t ih => rw [List.foldl_cons, ih, keys_agingStep]

theorem lookup_foldl_agingStep_notMem (ks : List K) (s : ILfuCache K V) (k : K)
    (h : k ∉ ks) :
    alookup (ks.foldl agingStep s).nodeMap_ k = alookup s.nodeMap_ k := by
  induction ks generalizing s with
  | nil => rfl
  | cons k1 t ih =>
    have hk1 : k ≠ k1 := fun he => h (by rw [he]; exact List.mem_cons_self _ _)
    rw [List.foldl_cons, ih _ (fun hm => h (List.mem_cons_of_mem _ hm)),
      lookup_agingStep_ne _ _ _ hk1]

theorem mem_bucketD_foldl_notMem (ks : List K) (s : ILfuCache K V) (k : K) (f : Int)
    (h : k ∉ ks) (hm : k ∈ s.bucketD f) :
    k ∈ (ks.foldl agingStep s).bucketD f := by
  induction ks generalizing s with
  | nil => exact hm
  | cons k1 t ih =>
    have hk1 : k ≠ k1 := fun he => h (by rw [he]; exact List.mem_cons_self _ _)
    rw [List.foldl_cons]
    exact ih _ (fun hmem => h (List.mem_cons_of_mem _ hmem))
      (mem_bucketD_agingStep _ _ _ _ hk1 hm)

theorem foldl_agingStep_spec (ks : List K) (s : ILfuCache K V) (k : K) (nd : Node V)
    (hdup : ks.Nodup) (hmem : k ∈ ks) (h : alookup s.nodeMap_ k = some nd) :
    alookup (ks.foldl agingStep s).nodeMap_ k
      = some { nd with freq := agedFreq s.maxAverageNum_ nd.freq } ∧
    k ∈ (ks.foldl agingStep s).bucketD (agedFreq s.maxAverageNum_ nd.freq) := by
  induction ks generalizing s with
  | nil => cases hmem
  | cons k1 t ih =>
    rw [List.foldl_cons]
    rcases List.mem_cons.mp hmem with rfl | hmemt
    · obtain ⟨h1, h2⟩ := agingStep_self s k nd h
      have hnot : k ∉ t := (List.nodup_cons.mp hdup).1
      exact ⟨(lookup_foldl_agingStep_notMem t _ k hnot).trans h1,
             mem_bucketD_foldl_notMem t _ k _ hnot h2⟩
    · have hne : k ≠ k1 := by
        rintro rfl
        exact (List.nodup_cons.mp hdup).1 hmemt
      have h2 : alookup (agingStep s k1).nodeMap_ k = some nd := by
        rw [lookup_agingStep_ne _ _ _ hne]
        exact h
      have hres := ih (agingStep s k1) (List.nodup_cons.mp hdup).2 hmemt h2
      rwa [maxAvg_agingStep] at hres

theorem handleOver_keys (s : ILfuCache K V) :
    s.handleOverMaxAverageNum.keys = s.keys := by
  unfold handleOverMaxAverageNum
  by_cases h : s.nodeMap_.isEmpty
  · simp [h]
  · simp only [h, Bool.false_eq_true, if_false]
    have : ∀ (s1 : ILfuCache K V), s1.updateMinFreq.keys = s1.keys := fun _ => rfl
    rw [this, keys_foldl_agingStep]

theorem handleOver_lookup (s : ILfuCache K V) (k : K) (nd : Node V)
    (hdup : s.keys.Nodup) (h : alookup s.nodeMap_ k = some nd) :
    alookup s.handleOverMaxAverageNum.nodeMap_ k
      = some { nd with freq := agedFreq s.maxAverageNum_ nd.freq } ∧
    k ∈ s.handleOverMaxAverageNum.bucketD (agedFreq s.maxAverageNum_ nd.freq) := by
  unfold handleOverMaxAverageNum
  have hne : s.nodeMap_.isEmpty = false := ne_nil_of_alookup _ _ _ h
  simp only [hne, Bool.false_eq_true, if_false]
  have hmem : k ∈ s.keys := mem_keys_of_alookup _ _ _ h
  have hres := foldl_agingStep_spec s.keys s k nd hdup hmem h
  exact hres

theorem addFreqNum_eq (s : ILfuCache K V) :
    addFreqNum s =
      if (bumpAvg s).curAverageNum_ > (bumpAvg s).maxAverageNum_
      then handleOverMaxAverageNum (bumpAvg s) else bumpAvg s := rfl

theorem addFreqNum_lookup (s : ILfuCache K V) (k : K) (nd : Node V)
    (hdup : s.keys.Nodup) (h : alookup s.nodeMap_ k = some nd) :
    (addFreqNum s).keys = s.keys ∧
    alookup (addFreqNum s).nodeMap_ k = some
      (if Int.tdiv (s.curTotalNum_ + 1) (s.nodeMap_.length : Int) > s.maxAverageNum_
       then { nd with freq := agedFreq s.maxAverageNum_ nd.freq } else nd) := by
  have hne : s.nodeMap_.isEmpty = false := ne_nil_of_alookup _ _ _ h
  have havg : (bumpAvg s).curAverageNum_
      = Int.tdiv (s.curTotalNum_ + 1) (s.nodeMap_.length : Int) := by
    simp [bumpAvg, hne]
  rw [addFreqNum_eq]
  by_cases hc : (bumpAvg s).curAverageNum_ > (bumpAvg s).maxAverageNum_
  · have hcond : Int.tdiv (s.curTotalNum_ + 1) (s.nodeMap_.length : Int)
        > s.maxAverageNum_ := by
      rw [← havg]
      exact hc
    rw [if_pos hc, if_pos hcond]
    constructor
    · rw [handleOver_keys]
      rfl
    · exact (handleOver_lookup (bumpAvg s) k nd hdup h).1
  · have hcond : ¬ Int.tdiv (s.curTotalNum_ + 1) (s.nodeMap_.length : Int)
        > s.maxAverageNum_ := by
      rw [← havg]
      exact hc
    rw [if_neg hc, if_neg hcond]
    exact ⟨rfl, h⟩

/-- The minimum-frequency correction at the end of getInternal, for a node
whose new frequency is f. -/
def minFreqFix (s : ILfuCache K V) (f : Int) : ILfuCache K V :=
  if f - 1 = s.minFreq_ ∧ s.bucketD (f - 1) = []
  then { s with minFreq_ := s.minFreq_ + 1 } else s

/-- The state getInternal builds before it calls addFreqNum: the node moved
to the next frequency list with its frequency incremented. -/
def giMid (s : ILfuCache K V) (k : K) (nd : Node V) : ILfuCache K V :=
  minFreqFix
    (addToFreqList
      { removeFromFreqList s nd.freq k with
        nodeMap_ :=
          aupdate (removeFromFreqList s nd.freq k).nodeMap_ k
            { nd with freq := nd.freq + 1 } }
      (nd.freq + 1) k)
    (nd.freq + 1)

theorem getInternal_fst_eq (s : ILfuCache K V) (k : K) (nd : Node V) :
    (s.getInternal k nd).1 = addFreqNum (giMid s k nd) := rfl

@[simp] theorem minFreqFix_nodeMap (s : ILfuCache K V) (f : Int) :
    (minFreqFix s f).nodeMap_ = s.nodeMap_ := by
  unfold minFreqFix
  split <;> rfl

@[simp] theorem minFreqFix_curTotalNum (s : ILfuCache K V) (f : Int) :
    (minFreqFix s f).curTotalNum_ = s.curTotalNum_ := by
  unfold minFreqFix
  split <;> rfl

@[simp] theorem minFreqFix_maxAverageNum (s : ILfuCache K V) (f : Int) :
    (minFreqFix s f).maxAverageNum_ = s.maxAverageNum_ := by
  unfold minFreqFix
  split <;> rfl

theorem giMid_nodeMap (s : ILfuCache K V) (k : K) (nd : Node V) :
    (giMid s k nd).nodeMap_ = aupdate s.nodeMap_ k { nd with freq := nd.freq + 1 } := by
  unfold giMid
  rw [minFreqFix_nodeMap, addToFreqList_nodeMap]
  simp

theorem giMid_curTotalNum (s : ILfuCache K V) (k : K) (nd : Node V) :
    (giMid s k nd).curTotalNum_ = s.curTotalNum_ := by
  unfold giMid
  rw [minFreqFix_curTotalNum, addToFreqList_curTotalNum]
  simp

theorem giMid_maxAverageNum (s : ILfuCache K V) (k : K) (nd : Node V) :
    (giMid s k nd).maxAverageNum_ = s.maxAverageNum_ := by
  unfold giMid
  rw [minFreqFix_maxAverageNum, addToFreqList_maxAverageNum]
  simp

theorem giMid_keys (s : ILfuCache K V) (k : K) (nd nd0 : Node V)
    (h : alookup s.nodeMap_ k = some nd0) :
    (giMid s k nd).keys = s.keys := by
  unfold keys
  rw [giMid_nodeMap]
  exact aupdate_keys_of_lookup _ _ _ _ h

theorem getInternal_fst_spec (s : ILfuCache K V) (k : K) (nd : Node V)
    (hdup : s.keys.Nodup) (h : alookup s.nodeMap_ k = some nd) :
    (s.getInternal k nd).1.keys = s.keys ∧
    alookup (s.getInternal k nd).1.nodeMap_ k = some
      (if Int.tdiv (s.curTotalNum_ + 1) (s.nodeMap_.length : Int) > s.maxAverageNum_
       then { value := nd.value, freq := agedFreq s.maxAverageNum_ (nd.freq + 1) }
       else { value := nd.value, freq := nd.freq + 1 }) := by
  rw [getInternal_fst_eq]
  have hk2 : alookup (giMid s k nd).nodeMap_ k = some { nd with freq := nd.freq + 1 } := by
    rw [giMid_nodeMap]
    exact alookup_aupdate_self _ _ _
  have hkeys : (giMid s k nd).keys = s.keys := giMid_keys s k nd nd h
  have hdup2 : (giMid s k nd).keys.Nodup := by
    rw [hkeys]
    exact hdup
  have hlen : (giMid s k nd).nodeMap_.length = s.nodeMap_.length := by
    have h1 := congrArg List.length hkeys
    simpa [keys] using h1
  obtain ⟨h1, h2⟩ := addFreqNum_lookup (giMid s k nd) k _ hdup2 hk2
  refine ⟨h1.trans hkeys, ?_⟩
  rw [h2]
  simp only [giMid_curTotalNum, giMid_maxAverageNum, hlen]

theorem put_existing_spec (s : ILfuCache K V) (k : K) (v : V) (nd : Node V)
    (hcap : 1 ≤ s.capacity_) (hdup : s.keys.Nodup)
    (h : alookup s.nodeMap_ k = some nd) :
    (s.put k v).keys = s.keys ∧
    (s.put k v).nodeMap_.length = s.nodeMap_.length ∧
    alookup (s.put k v).nodeMap_ k = some
      (if Int.tdiv (s.curTotalNum_ + 1) (s.nodeMap_.length : Int) > s.maxAverageNum_
       then { value := v, freq := agedFreq s.maxAverageNum_ (nd.freq + 1) }
       else { value := v, freq := nd.freq + 1 }) := by
  have hc0 : ¬ s.capacity_ = 0 := by omega
  unfold put
  rw [if_neg hc0]
  simp only [h]
  have h1 : alookup ({ s with nodeMap_ := aupdate s.nodeMap_ k { nd with value := v } }
      : ILfuCache K V).nodeMap_ k = some { nd with value := v } :=
    alookup_aupdate_self _ _ _
  have hkeys1 : ({ s with nodeMap_ := aupdate s.nodeMap_ k { nd with value := v } }
      : ILfuCache K V).keys = s.keys :=
    aupdate_keys_of_lookup _ _ _ _ h
  have hdup1 : ({ s with nodeMap_ := aupdate s.nodeMap_ k { nd with value := v } }
      : ILfuCache K V).keys.Nodup := by
    rw [hkeys1]
    exact hdup
  have hlen1 : ({ s with nodeMap_ := aupdate s.nodeMap_ k { nd with value := v } }
      : ILfuCache K V).nodeMap_.length = s.nodeMap_.length := by
    have h2 := congrArg List.length hkeys1
    simpa [keys] using h2
  obtain ⟨hk, hl⟩ := getInternal_fst_spec _ k { nd with value := v } hdup1 h1
  refine ⟨hk.trans hkeys1, ?_, ?_⟩
  · have h3 := congrArg List.length (hk.trans hkeys1)
    simpa [keys] using h3
  · rw [hl]
    simp only [hlen1]

end ILfuCache

/-! ### Claim C6: the aging pass characterized -/

/-- Claim C6: the aging pass (handleOverMaxAverageNum) removes no key and
changes no stored value; each live entry has its frequency replaced by
agedFreq (the old frequency minus maxAverageNum / 2, floored at 1) and is a
member of the frequency list of its new frequency; and whenever the bumped
running average exceeds maxAverageNum, addFreqNum runs exactly this pass. -/
theorem C6_aging_pass :
    (∀ (s : ILfuCache K V), s.keys.Nodup →
      (s.handleOverMaxAverageNum.keys = s.keys ∧
        ∀ (k : K) (nd : Node V), alookup s.nodeMap_ k = some nd →
          alookup s.handleOverMaxAverageNum.nodeMap_ k
            = some { nd with freq := ILfuCache.agedFreq s.maxAverageNum_ nd.freq } ∧
          k ∈ s.handleOverMaxAverageNum.bucketD
            (ILfuCache.agedFreq s.maxAverageNum_ nd.freq))) ∧
    (∀ (s : ILfuCache K V),
      (ILfuCache.bumpAvg s).curAverageNum_ > (ILfuCache.bumpAvg s).maxAverageNum_ →
      ILfuCache.addFreqNum s = ILfuCache.handleOverMaxAverageNum (ILfuCache.bumpAvg s)) := by
  constructor
  · intro s hdup
    exact ⟨ILfuCache.handleOver_keys s,
           fun k nd h => ILfuCache.handleOver_lookup s k nd hdup h⟩
  · intro s hc
    rw [ILfuCache.addFreqNum_eq, if_pos hc]

/-- A two-entry cache used to instantiate C6. -/
def c6w : ILfuCache Nat Nat := runOps (initCache 3 10) [Op.put 0 5, Op.put 1 6]

/-- Witness for C6: the aging characterization applied to a concrete cache
holding keys 0 and 1. -/
theorem C6_witness :
    alookup c6w.handleOverMaxAverageNum.nodeMap_ 0
      = some { value := 5, freq := ILfuCache.agedFreq c6w.maxAverageNum_ 1 } ∧
    0 ∈ c6w.handleOverMaxAverageNum.bucketD (ILfuCache.agedFreq c6w.maxAverageNum_ 1) :=
  (C6_aging_pass.1 c6w (by decide)).2 0 { value := 5, freq := 1 } (by decide)

/-! ### Claim C10: put on a present key -/

/-- The C10 scenario: capacity 1, maxAverageNum 2; put(0,0) then put(0,1)
leaves key 0 at frequency 2. -/
def c10State : ILfuCache Nat Nat := runOps (initCache 1 2) [Op.put 0 0, Op.put 0 1]

/-- Counterexample for C10: in c10State key 0 has frequency 2, and a further
put(0, 2) leaves it at frequency 2, not 3: the replacing put increments the
frequency to 3 but the aging pass it triggers immediately lowers it back to
2, so "put increments the frequency by 1" is false as stated. -/
theorem C10_counterexample :
    (alookup c10State.nodeMap_ 0).map Node.freq = some 2 ∧
    (alookup (c10State.put 0 2).nodeMap_ 0).map Node.freq = some 2 := by
  decide

/-- Claim C10 as amended: for a cache with capacity at least 1 and distinct
index keys, put(k, v) on a present key k replaces the stored value with v
and never evicts (the key set and the live count are unchanged, even at
full capacity); the frequency of k is incremented by 1, except that when
the bumped running average exceeds maxAverageNum the triggered aging pass
immediately re-lowers the new frequency to agedFreq(freq + 1). -/
theorem C10_put_existing (s : ILfuCache K V) (k : K) (v : V) (nd : Node V)
    (hcap : 1 ≤ s.capacity_) (hdup : s.keys.Nodup)
    (h : alookup s.nodeMap_ k = some nd) :
    (s.put k v).keys = s.keys ∧
    (s.put k v).nodeMap_.length = s.nodeMap_.length ∧
    alookup (s.put k v).nodeMap_ k = some
      (if Int.tdiv (s.curTotalNum_ + 1) (s.nodeMap_.length : Int) > s.maxAverageNum_
       then { value := v, freq := ILfuCache.agedFreq s.maxAverageNum_ (nd.freq + 1) }
       else { value := v, freq := nd.freq + 1 }) :=
  ILfuCache.put_existing_spec s k v nd hcap hdup h

/-- A one-entry cache used to instantiate C10. -/
def c10w : ILfuCache Nat Nat := (initCache 2 1000000 : ILfuCache Nat Nat).put 0 5

/-- Witness for C10: a capacity-2 cache holding key 0 at frequency 1; the
replacing put leaves one key and bumps the frequency to 2 (no aging at
maxAverageNum 1000000). -/
theorem C10_witness :
    ((c10w.put 0 9).keys = c10w.keys ∧
      (c10w.put 0 9).nodeMap_.length = c10w.nodeMap_.length ∧
      alookup ((c10w.put 0 9)).nodeMap_ 0 = some
        (if Int.tdiv (c10w.curTotalNum_ + 1) (c10w.nodeMap_.length : Int)
            > c10w.maxAverageNum_
         then { value := 9, freq := ILfuCache.agedFreq c10w.maxAverageNum_ (1 + 1) }
         else { value := 9, freq := 1 + 1 })) :=
  C10_put_existing c10w 0 9 { value := 5, freq := 1 } (by decide) (by decide) (by decide)

/-- A one-entry cache used to instantiate the universally quantified parts
of C3. -/
def c3w : ILfuCache Nat Nat := (initCache 2 1000000 : ILfuCache Nat Nat).put 0 5

/-- Witness for C3: the kickOut characterization applied to a concrete
state, and the append-at-tail fact at a concrete list. -/
theorem C3_witness :
    (c3w.kickOut.nodeMap_ = aerase c3w.nodeMap_ 0 ∧
      c3w.kickOut.curTotalNum_ = c3w.curTotalNum_ - (1 : Int)) ∧
    (c3w.addToFreqList 1 9).bucketD 1 = c3w.bucketD 1 ++ [9] :=
  ⟨C3_eviction_order.2.1 c3w 0 [] { value := 5, freq := 1 } (by decide) (by decide),
   C3_eviction_order.2.2 c3w 1 9⟩



/-! ### The INT8_MAX minimum-frequency defect: shared scenario

On ILfuCache(1, 252): put(5, 0) then 252 times get(5). The 252nd get raises
the access total to 253, the running average 253 exceeds maxAverageNum 252,
and the aging pass lowers the frequency of key 5 from 253 to 127, which is
exactly INT8_MAX. updateMinFreq starts its scan at INT8_MAX, keeps 127, and
then mistakes it for the all-empty sentinel, resetting minFreq_ to 1 even
though the only nonempty frequency list is the one for 127. -/

/-- The operation sequence put(5,0) followed by 252 times get(5). -/
def badOps : List (Op Nat Nat) := Op.put 5 0 :: List.replicate 252 (Op.get 5)

/-- n repetitions of get(5). -/
def getsN (n : Nat) : List (Op Nat Nat) := List.replicate n (Op.get 5)

/-- The engine state after badOps on ILfuCache(1, 252). -/
def badState : ILfuCache Nat Nat := runOps (initCache 1 252) badOps

/-- The state after put(5,0) and n gets of key 5 on ILfuCache(1, 252), for
n up to 251 (before the aging pass fires): one entry at frequency n+1,
frequency lists 1..n+1 with only the last nonempty, all counters n+1. -/
def midState (n : Nat) : ILfuCache Nat Nat :=
  { capacity_ := 1
    minFreq_ := (n + 1 : Int)
    maxAverageNum_ := 252
    curAverageNum_ := (n + 1 : Int)
    curTotalNum_ := (n + 1 : Int)
    nodeMap_ := [(5, { value := 0, freq := (n + 1 : Int) })]
    freqToFreqList_ :=
      (List.range (n + 1)).map (fun i => ((i + 1 : Int), if i = n then [5] else [])) }

/-- The literal value of badState: one live entry (key 5, frequency 127),
frequency lists 1..253 all allocated and empty except 127, total 253, and
minFreq_ = 1 although the minimum nonempty frequency is 127. -/
def badStateLit : ILfuCache Nat Nat :=
  { capacity_ := 1
    minFreq_ := 1
    maxAverageNum_ := 252
    curAverageNum_ := 253
    curTotalNum_ := 253
    nodeMap_ := [(5, { value := 0, freq := 127 })]
    freqToFreqList_ :=
      (List.range 253).map (fun i => ((i + 1 : Int), if i = 126 then [5] else [])) }

theorem runOps_cons (s : ILfuCache K V) (op : Op K V) (t : List (Op K V)) :
    runOps s (op :: t) = runOps (applyOp s op) t := rfl

theorem runOps_append (s : ILfuCache K V) (a b : List (Op K V)) :
    runOps s (a ++ b) = runOps (runOps s a) b := by
  unfold runOps
  exact List.foldl_append _ _ _ _

set_option maxRecDepth 100000 in
set_option maxHeartbeats 1000000 in
theorem mid_eq_start : applyOp (initCache 1 252) (Op.put 5 0) = midState 0 := by decide

set_option maxRecDepth 100000 in
set_option maxHeartbeats 1000000 in
theorem mid_eq_0 : runOps (midState 0) (getsN 21) = midState 21 := by decide

set_option maxRecDepth 100000 in
set_option maxHeartbeats 1000000 in
theorem mid_eq_21 : runOps (midState 21) (getsN 21) = midState 42 := by decide

set_option maxRecDepth 100000 in
set_option maxHeartbeats 1000000 in
theorem mid_eq_42 : runOps (midState 42) (getsN 21) = midState 63 := by decide

set_option maxRecDepth 100000 in
set_option maxHeartbeats 1000000 in
theorem mid_eq_63 : runOps (midState 63) (getsN 21) = midState 84 := by decide

set_option maxRecDepth 100000 in
set_option maxHeartbeats 1000000 in
theorem mid_eq_84 : runOps (midState 84) (getsN 21) = midState 105 := by decide

set_option maxRecDepth 100000 in
set_option maxHeartbeats 1000000 in
theorem mid_eq_105 : runOps (midState 105) (getsN 21) = midState 126 := by decide

set_option maxRecDepth 100000 in
set_option maxHeartbeats 1000000 in
theorem mid_eq_126 : runOps (midState 126) (getsN 21) = midState 147 := by decide

set_option maxRecDepth 100000 in
set_option maxHeartbeats 1000000 in
theorem mid_eq_147 : runOps (midState 147) (getsN 21) = midState 168 := by decide

set_option maxRecDepth 100000 in
set_option maxHeartbeats 1000000 in
theorem mid_eq_168 : runOps (midState 168) (getsN 21) = midState 189 := by decide

set_option maxRecDepth 100000 in
set_option maxHeartbeats 1000000 in
theorem mid_eq_189 : runOps (midState 189) (getsN 21) = midState 210 := by decide

set_option maxRecDepth 100000 in
set_option maxHeartbeats 1000000 in
theorem mid_eq_210 : runOps (midState 210) (getsN 21) = midState 231 := by decide

set_option maxRecDepth 100000 in
set_option maxHeartbeats 1000000 in
theorem mid_eq_231 : runOps (midState 231) (getsN 20) = midState 251 := by decide

set_option maxRecDepth 4000000 in
set_option maxHeartbeats 1000000 in
theorem mid_eq_final : runOps (midState 251) (getsN 1) = badStateLit := by decide

set_option maxRecDepth 400000 in
set_option maxHeartbeats 1000000 in
theorem badState_eq : badState = badStateLit := by
  have hops : badOps
      = Op.put 5 0 :: (getsN 21 ++ (getsN 21 ++ (getsN 21 ++ (getsN 21 ++ (getsN 21 ++
        (getsN 21 ++ (getsN 21 ++ (getsN 21 ++ (getsN 21 ++ (getsN 21 ++ (getsN 21 ++
        (getsN 20 ++ getsN 1)))))))))))) := by decide
  show runOps (initCache 1 252) badOps = badStateLit
  rw [hops, runOps_cons, mid_eq_start, runOps_append, mid_eq_0, runOps_append, mid_eq_21,
    runOps_append, mid_eq_42, runOps_append, mid_eq_63, runOps_append, mid_eq_84,
    runOps_append, mid_eq_105, runOps_append, mid_eq_126, runOps_append, mid_eq_147,
    runOps_append, mid_eq_168, runOps_append, mid_eq_189, runOps_append, mid_eq_210,
    runOps_append, mid_eq_231, mid_eq_final]

/-- Claim C4 fails on the code: in the reachable state badState the cache is
nonempty and the set of frequencies with a nonempty list is exactly 127,
yet minFreq_ is 1 (and the list for frequency 1 is allocated but empty):
after this aging pass minFreq_ is NOT the smallest frequency with a
nonempty list, because updateMinFreq conflates a smallest frequency of
INT8_MAX = 127 with the all-empty case and resets it to 1. -/
theorem C4_minFreq_corrupted :
    badState.nodeMap_ ≠ [] ∧
    badState.minFreq_ = 1 ∧
    (badState.freqToFreqList_.filter (fun p => !p.2.isEmpty)).map Prod.fst = [127] ∧
    badState.bucketD badState.minFreq_ = [] := by
  rw [badState_eq]
  decide

/-- Claim C8 fails on the code: in badState the live count equals the
capacity and key 6 is absent, so put(6, 0) reaches kickOut; but the list
named by minFreq_ is allocated and empty, so getFirstNode yields the tail
sentinel - the very case the claim says is unreachable. -/
theorem C8_kickOut_empty_bucket_reachable :
    badState.nodeMap_.length = badState.capacity_ ∧
    alookup badState.nodeMap_ 6 = none ∧
    alookup badState.freqToFreqList_ badState.minFreq_ = some [] ∧
    FreqList.getFirstNode (([] : List Nat)) = none := by
  rw [badState_eq]
  decide

/-- Claim C2 fails on the code: putting the fresh key 6 into badState (live
count 1 = capacity 1) runs kickOut on the empty minimum list, which evicts
nothing, and the insert then leaves 2 live entries in a capacity-1 cache. -/
theorem C2_capacity_exceeded :
    (badState.put 6 0).nodeMap_.length = 2 ∧
    (badState.put 6 0).capacity_ = 1 ∧
    ((badState.put 6 0).keys = [5, 6]) := by
  rw [badState_eq]
  decide

/-- Claim C5 fails on the code: on ILfuCache(1, 2), after put(0,0), get(0),
get(0) the aging pass has lowered the only frequency from 3 to 2, but
curTotalNum_ is still 3 (handleOverMaxAverageNum never subtracts from the
total), so the running total is not the sum of the live frequencies, and
the running average stays at 3, above maxAverageNum 2. -/
theorem C5_total_not_sum_after_aging :
    (runOps (initCache 1 2) [Op.put 0 0, Op.get 0, Op.get 0]).curTotalNum_ = 3 ∧
    ILfuCache.sumFreqs (runOps (initCache 1 2) [Op.put 0 0, Op.get 0, Op.get 0]) = 2 ∧
    (runOps (initCache 1 2) [Op.put 0 0, Op.get 0, Op.get 0]).curAverageNum_ = 3 ∧
    (runOps (initCache 1 2) [Op.put 0 0, Op.get 0, Op.get 0]).maxAverageNum_ = 2 := by
  decide

end IncreCache
